import Mathlib

/-!
Shallow embedding of the layer library in `Convolution.ipynb`
(`convLayer`, `MaxPool`, and the gradient-check loop), together with
theorems settling the frozen claims about it.

Conventions of the embedding:
* numpy float arrays of rank 3 become `Tensor3`: explicit shape fields plus a
  total data function `ℕ → ℕ → ℕ → ℚ`; entries outside the declared shape are
  junk (reads of them never occur in the source's in-bounds regime, which every
  theorem restricts itself to via hypotheses).  Real arithmetic is idealised
  over `ℚ` so that concrete inputs evaluate.
* Python exceptions become the `Err` inductive; a call that raises is embedded
  as `Except.error`.
* in-place loop accumulation (`+=` into overlapping slices in
  `convLayer.backward`) is embedded as a fold (`accLoop`) over the list of
  visited output positions, in source loop order.
-/

namespace ConvNb

/-- Rank-3 numpy array over idealised rationals: shape plus total data
function (out-of-shape entries are junk). -/
structure Tensor3 where
  ch : ℕ
  rows : ℕ
  cols : ℕ
  data : ℕ → ℕ → ℕ → ℚ

/-- Kinds of Python exception the notebook's code can actually raise
(`attributeError` from dereferencing a `None` cache, `valueError` from a numpy
broadcast mismatch), plus the error names the specification postulates
(`stateError`, `shapeError`), which no code path raises. -/
inductive Err where
  | attributeError
  | valueError
  | stateError
  | shapeError
  deriving DecidableEq

/-- State of `convLayer`: constructor parameters, the weight tensor `W`
(indexed out-channel, in-channel, kernel row, kernel col), the forward cache
(`None` until the first forward call; afterwards the padded input), and the
weight gradient written by `backward`. -/
structure ConvLayer where
  kernelsize : ℕ
  stride : ℕ
  pad : ℕ
  in_channels : ℕ
  out_channels : ℕ
  W : ℕ → ℕ → ℕ → ℕ → ℚ
  cache : Option Tensor3
  gradW : Option (ℕ → ℕ → ℕ → ℕ → ℚ)

/-- `np.pad(x, ((0,0),(p,p),(p,p)), 'constant')`: zero-pad both spatial
dimensions by `p` on each side. -/
def padTensor (x : Tensor3) (p : ℕ) : Tensor3 where
  ch := x.ch
  rows := x.rows + 2 * p
  cols := x.cols + 2 * p
  data := fun d i j =>
    if p ≤ i ∧ i < p + x.rows ∧ p ≤ j ∧ j < p + x.cols then
      x.data d (i - p) (j - p)
    else 0

/-- `output_size = (x_width - self.kernelsize + 2*self.pad)//self.stride + 1`.
Stated with truncated `ℕ` subtraction; it agrees with Python's floor division
whenever `kernelsize ≤ x_width + 2*pad` (the regime of every claim). -/
def outSize (L : ConvLayer) (x : Tensor3) : ℕ :=
  (x.rows + 2 * L.pad - L.kernelsize) / L.stride + 1

/-- `np.sum(self.W * x_slice, (1,2,3))` at output channel `c`, for the slice
anchored at output position `(i, j)`: total of the elementwise product over
the flattened (in-channel, kernel-row, kernel-col) axes. -/
def sliceSum (L : ConvLayer) (xp : Tensor3) (i j c : ℕ) : ℚ :=
  ∑ t ∈ Finset.range L.in_channels ×ˢ
        (Finset.range L.kernelsize ×ˢ Finset.range L.kernelsize),
    L.W c t.1 t.2.1 t.2.2 *
      xp.data t.1 (i * L.stride + t.2.1) (j * L.stride + t.2.2)

/-- `convLayer.__call__`: pad the input, allocate a zero output of square side
`outSize`, write each entry from the kernel contraction (the loop writes each
`(i, j)` exactly once, so the zeros-then-`+=` loop is embedded as a guarded
pointwise definition), and cache the padded input. -/
def convForward (L : ConvLayer) (x : Tensor3) : ConvLayer × Tensor3 :=
  ({ L with cache := some (padTensor x L.pad) },
   { ch := L.out_channels
     rows := outSize L x
     cols := outSize L x
     data := fun c i j =>
       if c < L.out_channels ∧ i < outSize L x ∧ j < outSize L x then
         sliceSum L (padTensor x L.pad) i j c
       else 0 })

/-- Output positions visited by the nested `for h in range(H): for w in
range(W):` loops, in visiting order. -/
def loopIdx (H Wd : ℕ) : List (ℕ × ℕ) :=
  (List.range H).flatMap fun h => (List.range Wd).map fun w => (h, w)

/-- Generic embedding of an in-place `+=` accumulation loop: starting from the
accumulator `acc`, each visited output position `(h, w)` adds its contribution
`step (h, w)` pointwise. -/
def accLoop {ι : Type} (step : ℕ × ℕ → ι → ℚ) : List (ℕ × ℕ) → (ι → ℚ) → ι → ℚ
  | [], acc => acc
  | hw :: rest, acc => accLoop step rest (fun z => acc z + step hw z)

/-- Contribution of output position `(h, w)` to `dX[d, a, b]` in
`convLayer.backward`: the slice assignment
`dX[:, h*s:h*s+k, w*s:w*s+k] += np.sum(self.W * delta[:,h,w].reshape(C,-1,1,1), axis=0)`
touches `(a, b)` exactly when it lies in that window, adding
`sum_c W[c, d, a - h*s, b - w*s] * delta[c, h, w]`. -/
def dxContrib (L : ConvLayer) (delta : Tensor3) (h w d a b : ℕ) : ℚ :=
  if h * L.stride ≤ a ∧ a < h * L.stride + L.kernelsize ∧
      w * L.stride ≤ b ∧ b < w * L.stride + L.kernelsize then
    ∑ c ∈ Finset.range delta.ch,
      L.W c d (a - h * L.stride) (b - w * L.stride) * delta.data c h w
  else 0

/-- Contribution of output position `(h, w)` to `dW[c, d, di, dj]`:
`dW += x_slice * delta[:,h,w].reshape(C,-1,1,1)` adds
`x[d, h*s+di, w*s+dj] * delta[c, h, w]`. -/
def dwContrib (L : ConvLayer) (xp delta : Tensor3) (h w c d di dj : ℕ) : ℚ :=
  xp.data d (h * L.stride + di) (w * L.stride + dj) * delta.data c h w

/-- The accumulated `dX` array (over the padded input's index space) after the
backward loop has visited every output position. -/
def convDX (L : ConvLayer) (delta : Tensor3) : ℕ → ℕ → ℕ → ℚ := fun d a b =>
  accLoop (fun hw z => dxContrib L delta hw.1 hw.2 z.1 z.2.1 z.2.2)
    (loopIdx delta.rows delta.cols) (fun _ => 0) (d, a, b)

/-- The accumulated `dW` array after the backward loop. -/
def convDW (L : ConvLayer) (xp delta : Tensor3) : ℕ → ℕ → ℕ → ℕ → ℚ :=
  fun c d di dj =>
    accLoop (fun hw z => dwContrib L xp delta hw.1 hw.2 z.1 z.2.1 z.2.2.1 z.2.2.2)
      (loopIdx delta.rows delta.cols) (fun _ => 0) (c, d, di, dj)

/-- Length of the Python slice `a[p:-p]` on an axis of length `n`: for `p ≥ 1`
this keeps indices `p, …, n-p-1`; for `p = 0` the slice is `a[0:0]`, the EMPTY
slice (Python's `-0` is `0`), not the whole axis. -/
def cropLen (n p : ℕ) : ℕ :=
  if p = 0 then 0 else n - 2 * p

/-- `convLayer.backward`: dereferences the cache (raising `AttributeError`
when it is still `None`), accumulates `dX` and `dW` over all output positions,
stores `dW` in `gradW`, and returns `dX[:, pad:-pad, pad:-pad]`. -/
def convBackward (L : ConvLayer) (delta : Tensor3) :
    Except Err (ConvLayer × Tensor3) :=
  match L.cache with
  | none => Except.error Err.attributeError
  | some x =>
      Except.ok
        ({ L with gradW := some (convDW L x delta) },
         { ch := x.ch
           rows := cropLen x.rows L.pad
           cols := cropLen x.cols L.pad
           data := fun d a b => convDX L delta d (a + L.pad) (b + L.pad) })

/-- State of `MaxPool`: only the needle-map cache. -/
structure MaxPool where
  cache : Option Tensor3

/-- `np.amax(x_slice, axis=(1,2))` over the full 2×2 window anchored at output
position `(i, j)` of channel `d`. -/
def windowMax (x : Tensor3) (d i j : ℕ) : ℚ :=
  max (max (x.data d (2 * i) (2 * j)) (x.data d (2 * i) (2 * j + 1)))
      (max (x.data d (2 * i + 1) (2 * j)) (x.data d (2 * i + 1) (2 * j + 1)))

/-- The needle-map cache written by `MaxPool.__call__`: 1.0 where the entry
equals the max of its 2×2 window (all ties marked), 0.0 elsewhere.  The loop
writes each disjoint 2×2 window once; the window of `(a, b)` is
`(a / 2, b / 2)`. -/
def mpMask (x : Tensor3) : Tensor3 where
  ch := x.ch
  rows := x.rows
  cols := x.cols
  data := fun d a b =>
    if d < x.ch ∧ a < x.rows ∧ b < x.cols then
      (if x.data d a b = windowMax x d (a / 2) (b / 2) then 1 else 0)
    else 0

/-- The pooled output of `MaxPool.__call__` (ceiling-division spatial shape,
per-window per-channel max). -/
def mpOut (x : Tensor3) : Tensor3 where
  ch := x.ch
  rows := (x.rows + 1) / 2
  cols := (x.cols + 1) / 2
  data := fun d i j =>
    if d < x.ch ∧ i < (x.rows + 1) / 2 ∧ j < (x.cols + 1) / 2 then
      windowMax x d i j
    else 0

/-- `MaxPool.__call__`.  When some processed window is partial (an odd spatial
dimension, with at least one window processed in each loop), the source
crashes: `idx_map = np.where(cond, np.ones((C,2,2)), np.zeros((C,2,2)))` is a
full (C,2,2) array and its assignment into the partial cache slice is a numpy
broadcast `ValueError`.  Otherwise it stores the needle map and returns the
pooled output. -/
def maxPoolForward (x : Tensor3) : Except Err (MaxPool × Tensor3) :=
  if 0 < x.rows ∧ 0 < x.cols ∧ ¬(2 ∣ x.rows ∧ 2 ∣ x.cols) then
    Except.error Err.valueError
  else
    Except.ok ({ cache := some (mpMask x) }, mpOut x)

/-- The in-place scaling `self.cache[:, 2i:2i+2, 2j:2j+2] *= d[:,i,j].reshape(-1,1,1)`
performed by `MaxPool.backward` over every delta position: entry `(ch, a, b)`
lies in the window of delta position `(a / 2, b / 2)` and is scaled exactly
when that position is visited. -/
def mpScale (c d : Tensor3) : Tensor3 where
  ch := c.ch
  rows := c.rows
  cols := c.cols
  data := fun ch a b =>
    if a / 2 < d.rows ∧ b / 2 < d.cols then
      c.data ch a b * d.data ch (a / 2) (b / 2)
    else c.data ch a b

/-- `MaxPool.backward`: dereferences the cache (raising `AttributeError` when
`None`), scales it in place by the incoming delta, and returns that same
(now mutated) cache object. -/
def maxPoolBackward (m : MaxPool) (d : Tensor3) :
    Except Err (MaxPool × Tensor3) :=
  match m.cache with
  | none => Except.error Err.attributeError
  | some c => Except.ok ({ cache := some (mpScale c d) }, mpScale c d)

/-- Scalar weight store used by the gradient-check loop: the weight tensor as
a function of its four indices. -/
def updW (f : ℕ × ℕ × ℕ × ℕ → ℚ) (idx : ℕ × ℕ × ℕ × ℕ) (v : ℚ) :
    ℕ × ℕ × ℕ × ℕ → ℚ :=
  fun t => if t = idx then v else f t

/-- One iteration of the gradient-check loop body for a single weight element
`idx`: save `orig = layer.W[c,d,i,j].copy()`, evaluate the loss with the
element set to `orig + ε` and then `orig - ε`, form the central difference,
and restore the element to `orig`.  The surrounding model evaluation is
abstracted as the loss functional `loss` of the whole weight store. -/
def gradCheckStep (W0 : ℕ × ℕ × ℕ × ℕ → ℚ) (idx : ℕ × ℕ × ℕ × ℕ) (eps : ℚ)
    (loss : (ℕ × ℕ × ℕ × ℕ → ℚ) → ℚ) : (ℕ × ℕ × ℕ × ℕ → ℚ) × ℚ :=
  let orig := W0 idx
  let W1 := updW W0 idx (orig + eps)
  let cost1 := loss W1
  let W2 := updW W1 idx (orig - eps)
  let cost2 := loss W2
  let approx := (cost1 - cost2) / (2 * eps)
  (updW W2 idx orig, approx)

/-! Concrete fixtures used by witnesses, counterexamples and code-bug
evaluations. -/

/-- All-ones 4-index weight tensor. -/
def wOne : ℕ → ℕ → ℕ → ℕ → ℚ := fun _ _ _ _ => 1

/-- A 1×1 kernel, stride-1, padding-0, 1-in/1-out channel layer. -/
def layerK1 : ConvLayer :=
  { kernelsize := 1, stride := 1, pad := 0, in_channels := 1, out_channels := 1,
    W := wOne, cache := none, gradW := none }

/-- A 2×2 kernel, stride-2, padding-0 layer (non-exact output division on a
5-wide input). -/
def layerK2S2 : ConvLayer :=
  { kernelsize := 2, stride := 2, pad := 0, in_channels := 1, out_channels := 1,
    W := wOne, cache := none, gradW := none }

/-- Constant 1×2×2 input. -/
def xTwo : Tensor3 := ⟨1, 2, 2, fun _ _ _ => 1⟩

/-- Constant 1×5×5 input. -/
def xFive : Tensor3 := ⟨1, 5, 5, fun _ _ _ => 1⟩

/-- Constant 1×3×3 input (odd spatial dimensions). -/
def xOdd : Tensor3 := ⟨1, 3, 3, fun _ _ _ => 0⟩

/-- Constant 1×2×2 upstream gradient. -/
def deltaTwo : Tensor3 := ⟨1, 2, 2, fun _ _ _ => 1⟩

/-- Constant 1×1×1 tensors for tiny fixtures. -/
def xUnit : Tensor3 := ⟨1, 1, 1, fun _ _ _ => 3⟩

/-- Constant 1×1×1 upstream gradient. -/
def deltaUnit : Tensor3 := ⟨1, 1, 1, fun _ _ _ => 2⟩

/-- The 1×1 layer with a cached padded input already installed, as left by a
forward pass on `xUnit`. -/
def layerK1Cached : ConvLayer :=
  { layerK1 with cache := some (padTensor xUnit 0) }

/-- 1×2×2 input with rows `(1, 1)` and `(0, 0)`: its single 2×2 window has a
tied maximum at the two top positions. -/
def xTie : Tensor3 := ⟨1, 2, 2, fun _ a _ => if a = 0 then 1 else 0⟩

/-- 1×2×2 input with the four distinct values 0, 1, 2, 3 (unique window
maximum at the bottom-right position). -/
def xDistinct : Tensor3 := ⟨1, 2, 2, fun _ a b => (2 * a + b : ℕ)⟩

/-- 1×1×1 delta matching the pooled shape of a 1×2×2 input. -/
def deltaPool : Tensor3 := ⟨1, 1, 1, fun _ _ _ => 5⟩

/-- Second 1×1×1 delta, for the repeated-backward fixture. -/
def deltaPool2 : Tensor3 := ⟨1, 1, 1, fun _ _ _ => 7⟩

/-! Helper lemmas relating the accumulation folds to closed-form sums. -/

/-- Unrolling `accLoop`: the fold over a list of positions adds the total of
all per-position contributions to the initial accumulator. -/
theorem accLoop_eq {ι : Type} (step : ℕ × ℕ → ι → ℚ) (l : List (ℕ × ℕ)) :
    ∀ (acc : ι → ℚ) (z : ι),
      accLoop step l acc z = acc z + (l.map fun hw => step hw z).sum := by
  induction l with
  | nil => intro acc z; simp [accLoop]
  | cons hw rest ih =>
      intro acc z
      rw [accLoop, ih]
      simp
      ring

/-- A mapped sum over `List.range` equals the `Finset.range` sum. -/
theorem list_range_map_sum (f : ℕ → ℚ) (n : ℕ) :
    ((List.range n).map f).sum = ∑ k ∈ Finset.range n, f k := by
  induction n with
  | zero => simp
  | succ m ih =>
      rw [List.range_succ]
      simp [ih, Finset.sum_range_succ]

/-- A mapped sum over the loop's visiting order equals the double
`Finset.range` sum. -/
theorem loopIdx_map_sum (F : ℕ × ℕ → ℚ) (H Wd : ℕ) :
    ((loopIdx H Wd).map F).sum =
      ∑ h ∈ Finset.range H, ∑ w ∈ Finset.range Wd, F (h, w) := by
  induction H with
  | zero => simp [loopIdx]
  | succ m ih =>
      rw [loopIdx, List.range_succ] at *
      simp only [List.flatMap_append, List.map_append, List.sum_append, ih,
        Finset.sum_range_succ]
      simp [List.map_map, list_range_map_sum, Function.comp]

/-- With a decidable predicate on the four window positions that holds at
exactly one of them, the four 0/1 indicators sum to one. -/
theorem mask_sum_unique (P : Fin 2 × Fin 2 → Prop) [DecidablePred P]
    (h : ∃! p, P p) :
    (if P (0, 0) then (1 : ℚ) else 0) + (if P (0, 1) then 1 else 0) +
      (if P (1, 0) then 1 else 0) + (if P (1, 1) then 1 else 0) = 1 := by
  obtain ⟨p, hp, hun⟩ := h
  have key : ∀ q, P q ↔ q = p := fun q => ⟨fun hq => hun q hq, fun hq => hq ▸ hp⟩
  simp only [key]
  fin_cases p <;> norm_num [Prod.ext_iff]

/-! Claims about `convLayer`. -/

/-- C1: for an input whose channel count matches the layer's configured
input-channel count, every in-range output entry of the forward pass equals
the sum over all input channels and kernel offsets of
`W[c,d,di,dj] * padded_x[d, i*s+di, j*s+dj]`, with no bias term added. -/
theorem conv_forward_value (L : ConvLayer) (x : Tensor3)
    (hch : x.ch = L.in_channels) (c i j : ℕ)
    (hc : c < L.out_channels) (hi : i < outSize L x) (hj : j < outSize L x) :
    (convForward L x).2.data c i j =
      ∑ d ∈ Finset.range x.ch, ∑ di ∈ Finset.range L.kernelsize,
        ∑ dj ∈ Finset.range L.kernelsize,
          L.W c d di dj *
            (padTensor x L.pad).data d (i * L.stride + di) (j * L.stride + dj) := by
  show (if c < L.out_channels ∧ i < outSize L x ∧ j < outSize L x then
      sliceSum L (padTensor x L.pad) i j c else 0) = _
  rw [if_pos ⟨hc, hi, hj⟩, sliceSum, hch, Finset.sum_product]
  refine Finset.sum_congr rfl fun d _ => ?_
  rw [Finset.sum_product]

/-- Witness for C1: the hypotheses and conclusion of `conv_forward_value` hold
at the concrete 1×1-kernel layer on the constant 1×1×1 input. -/
theorem conv_forward_value_witness :
    xUnit.ch = layerK1.in_channels ∧ 0 < layerK1.out_channels ∧
      0 < outSize layerK1 xUnit ∧
      (convForward layerK1 xUnit).2.data 0 0 0 =
        ∑ d ∈ Finset.range xUnit.ch, ∑ di ∈ Finset.range layerK1.kernelsize,
          ∑ dj ∈ Finset.range layerK1.kernelsize,
            layerK1.W 0 d di dj *
              (padTensor xUnit layerK1.pad).data d (0 * layerK1.stride + di)
                (0 * layerK1.stride + dj) :=
  ⟨rfl, by decide, by decide,
    conv_forward_value layerK1 xUnit rfl 0 0 0 (by decide) (by decide) (by decide)⟩

/-- C2: for a layer holding a cached padded input, `backward` succeeds and
(a) each entry of the returned input-gradient is the total, over all output
positions whose receptive-field window covers it, of
`sum_c W[c,d,·,·] * delta[c,h,w]` (accumulated, never overwritten), and
(b) the stored readable `gradW` entry at `(c,d,di,dj)` is the total over all
output positions of the padded-input slice element times `delta[c,h,w]`. -/
theorem conv_backward_grads (L : ConvLayer) (xp delta : Tensor3)
    (hc : L.cache = some xp) :
    ∃ L2 g, convBackward L delta = Except.ok (L2, g) ∧
      (∀ d a b, g.data d a b =
        ∑ h ∈ Finset.range delta.rows, ∑ w ∈ Finset.range delta.cols,
          if h * L.stride ≤ a + L.pad ∧ a + L.pad < h * L.stride + L.kernelsize ∧
              w * L.stride ≤ b + L.pad ∧ b + L.pad < w * L.stride + L.kernelsize then
            ∑ c ∈ Finset.range delta.ch,
              L.W c d (a + L.pad - h * L.stride) (b + L.pad - w * L.stride) *
                delta.data c h w
          else 0) ∧
      (∃ gw, L2.gradW = some gw ∧
        ∀ c d di dj, gw c d di dj =
          ∑ h ∈ Finset.range delta.rows, ∑ w ∈ Finset.range delta.cols,
            xp.data d (h * L.stride + di) (w * L.stride + dj) *
              delta.data c h w) := by
  unfold convBackward
  rw [hc]
  refine ⟨_, _, rfl, ?_, _, rfl, ?_⟩
  · intro d a b
    show convDX L delta d (a + L.pad) (b + L.pad) = _
    rw [convDX]
    simp only [accLoop_eq, loopIdx_map_sum, zero_add]
    exact Finset.sum_congr rfl fun h _ => Finset.sum_congr rfl fun w _ => by
      rw [dxContrib]
  · intro c d di dj
    show convDW L xp delta c d di dj = _
    rw [convDW]
    simp only [accLoop_eq, loopIdx_map_sum, zero_add]
    exact Finset.sum_congr rfl fun h _ => Finset.sum_congr rfl fun w _ => by
      rw [dwContrib]

/-- Witness for C2 at the cached 1×1-kernel layer and the 1×1×1 delta. -/
theorem conv_backward_grads_witness :
    layerK1Cached.cache = some (padTensor xUnit 0) ∧
      (∃ L2 g, convBackward layerK1Cached deltaUnit = Except.ok (L2, g) ∧
        (∀ d a b, g.data d a b =
          ∑ h ∈ Finset.range deltaUnit.rows, ∑ w ∈ Finset.range deltaUnit.cols,
            if h * layerK1Cached.stride ≤ a + layerK1Cached.pad ∧
                a + layerK1Cached.pad <
                  h * layerK1Cached.stride + layerK1Cached.kernelsize ∧
                w * layerK1Cached.stride ≤ b + layerK1Cached.pad ∧
                b + layerK1Cached.pad <
                  w * layerK1Cached.stride + layerK1Cached.kernelsize then
              ∑ c ∈ Finset.range deltaUnit.ch,
                layerK1Cached.W c d (a + layerK1Cached.pad - h * layerK1Cached.stride)
                    (b + layerK1Cached.pad - w * layerK1Cached.stride) *
                  deltaUnit.data c h w
            else 0) ∧
        (∃ gw, L2.gradW = some gw ∧
          ∀ c d di dj, gw c d di dj =
            ∑ h ∈ Finset.range deltaUnit.rows, ∑ w ∈ Finset.range deltaUnit.cols,
              (padTensor xUnit 0).data d (h * layerK1Cached.stride + di)
                  (w * layerK1Cached.stride + dj) *
                deltaUnit.data c h w)) :=
  ⟨rfl, conv_backward_grads layerK1Cached (padTensor xUnit 0) deltaUnit rfl⟩

/-- C3 is contradicted by the code: with padding 0 the crop
`dX[:, 0:-0, 0:-0]` is the empty slice, so after a forward pass on a 1×2×2
input the backward pass returns a 1×0×0 tensor instead of one with the input's
shape.  This theorem evaluates the code at that failing input. -/
theorem conv_backward_pad_zero_empty :
    Except.map (fun r => (r.2.rows, r.2.cols))
        (convBackward (convForward layerK1 xTwo).1 deltaTwo) =
      Except.ok (0, 0) ∧ xTwo.rows = 2 ∧ xTwo.cols = 2 :=
  ⟨rfl, rfl, rfl⟩

/-- Counterexample to C4 as stated: on a configuration where
`(H + 2p − k) = 3` is not divisible by the stride `2`, the forward pass
completes and floors (output side `2`); no `ShapeError` is ever raised — the
layer has no strict mode and `convForward` has no failure path at all. -/
theorem conv_forward_floors_without_error :
    (convForward layerK2S2 xFive).2.rows = 2 ∧
      ¬ layerK2S2.stride ∣ (xFive.rows + 2 * layerK2S2.pad - layerK2S2.kernelsize) := by
  decide

/-- C4 as amended: for every layer with positive stride and kernel not larger
than the padded input, both spatial output sides equal
`floor((H + 2p − k)/s) + 1` (Python floor division), unconditionally — the
non-exact case floors silently. -/
theorem conv_output_size_floor (L : ConvLayer) (x : Tensor3)
    (_hs : 0 < L.stride) (hk : L.kernelsize ≤ x.rows + 2 * L.pad) :
    ((convForward L x).2.rows : ℤ) =
      Int.fdiv ((x.rows : ℤ) + 2 * (L.pad : ℤ) - (L.kernelsize : ℤ)) (L.stride : ℤ) + 1 ∧
    (convForward L x).2.cols = (convForward L x).2.rows := by
  refine ⟨?_, rfl⟩
  show ((outSize L x : ℕ) : ℤ) = _
  rw [outSize]
  have h1 : (x.rows : ℤ) + 2 * (L.pad : ℤ) - (L.kernelsize : ℤ) =
      ((x.rows + 2 * L.pad - L.kernelsize : ℕ) : ℤ) := by omega
  rw [h1, Int.fdiv_eq_ediv _ (Int.ofNat_nonneg _), ← Int.natCast_div]
  push_cast
  ring

/-- Witness for C4's amended theorem at the stride-2 layer on the 1×5×5
input: `floor(3/2) + 1 = 2`. -/
theorem conv_output_size_floor_witness :
    0 < layerK2S2.stride ∧ layerK2S2.kernelsize ≤ xFive.rows + 2 * layerK2S2.pad ∧
      ((convForward layerK2S2 xFive).2.rows : ℤ) =
        Int.fdiv ((xFive.rows : ℤ) + 2 * (layerK2S2.pad : ℤ) -
          (layerK2S2.kernelsize : ℤ)) (layerK2S2.stride : ℤ) + 1 ∧
      (convForward layerK2S2 xFive).2.cols = (convForward layerK2S2 xFive).2.rows :=
  ⟨by decide, by decide,
    conv_output_size_floor layerK2S2 xFive (by decide) (by decide)⟩

/-- Counterexample to C9 as stated: invoking `backward` on a freshly
constructed layer (cache `None`) raises `AttributeError` — from dereferencing
`None.shape` — which is not the `StateError` the claim names (no such class
exists in the code). -/
theorem conv_backward_no_stateerror :
    convBackward layerK1 deltaTwo = Except.error Err.attributeError ∧
      Err.attributeError ≠ Err.stateError :=
  ⟨rfl, by decide⟩

/-- C9 as amended: invoking `backward` before a matching `forward` (cache
absent) fails, on both layer classes, with the `AttributeError` produced by
dereferencing the `None` cache, not a dedicated `StateError`. -/
theorem backward_absent_cache_attrerror :
    (∀ (L : ConvLayer) (delta : Tensor3), L.cache = none →
        convBackward L delta = Except.error Err.attributeError) ∧
      (∀ (m : MaxPool) (d : Tensor3), m.cache = none →
        maxPoolBackward m d = Except.error Err.attributeError) := by
  constructor
  · intro L delta hc
    unfold convBackward
    rw [hc]
  · intro m d hc
    unfold maxPoolBackward
    rw [hc]

/-- Witness for the amended C9 at a fresh layer and a fresh pool. -/
theorem backward_absent_cache_attrerror_witness :
    (layerK1.cache = none ∧
      convBackward layerK1 deltaUnit = Except.error Err.attributeError) ∧
    ((⟨none⟩ : MaxPool).cache = none ∧
      maxPoolBackward ⟨none⟩ deltaUnit = Except.error Err.attributeError) :=
  ⟨⟨rfl, backward_absent_cache_attrerror.1 layerK1 deltaUnit rfl⟩,
   ⟨rfl, backward_absent_cache_attrerror.2 ⟨none⟩ deltaUnit rfl⟩⟩

/-! Claims about `MaxPool` and the gradient-check loop. -/

/-- C5: when the forward pass completes, the stored cache marks an input
entry with 1.0 exactly when it equals the maximum of its 2×2 window (so all
tied maxima are marked), and with 0.0 otherwise. -/
theorem maxpool_cache_mask (x : Tensor3) (h2r : 2 ∣ x.rows) (h2c : 2 ∣ x.cols)
    (d a b : ℕ) (hd : d < x.ch) (ha : a < x.rows) (hb : b < x.cols) :
    ∃ m out, maxPoolForward x = Except.ok (m, out) ∧ ∃ cc, m.cache = some cc ∧
      (cc.data d a b = 1 ↔ x.data d a b = windowMax x d (a / 2) (b / 2)) ∧
      (cc.data d a b = 0 ↔ ¬ x.data d a b = windowMax x d (a / 2) (b / 2)) := by
  have hcond : ¬(0 < x.rows ∧ 0 < x.cols ∧ ¬(2 ∣ x.rows ∧ 2 ∣ x.cols)) :=
    fun h => h.2.2 ⟨h2r, h2c⟩
  have hmv : (mpMask x).data d a b =
      (if x.data d a b = windowMax x d (a / 2) (b / 2) then (1 : ℚ) else 0) := by
    simp only [mpMask]
    rw [if_pos ⟨hd, ha, hb⟩]
  have hfwd : maxPoolForward x = Except.ok ({ cache := some (mpMask x) }, mpOut x) := by
    unfold maxPoolForward
    rw [if_neg hcond]
  refine ⟨_, _, hfwd, mpMask x, rfl, ?_, ?_⟩
  · rw [hmv]
    by_cases hx : x.data d a b = windowMax x d (a / 2) (b / 2) <;> simp [hx]
  · rw [hmv]
    by_cases hx : x.data d a b = windowMax x d (a / 2) (b / 2) <;> simp [hx]

/-- Witness for C5 on the tied-window input `xTie`, at the second of the two
tied positions. -/
theorem maxpool_cache_mask_witness :
    2 ∣ xTie.rows ∧ 2 ∣ xTie.cols ∧ 0 < xTie.ch ∧ 0 < xTie.rows ∧ 1 < xTie.cols ∧
      (∃ m out, maxPoolForward xTie = Except.ok (m, out) ∧ ∃ cc, m.cache = some cc ∧
        (cc.data 0 0 1 = 1 ↔ xTie.data 0 0 1 = windowMax xTie 0 (0 / 2) (1 / 2)) ∧
        (cc.data 0 0 1 = 0 ↔ ¬ xTie.data 0 0 1 = windowMax xTie 0 (0 / 2) (1 / 2))) :=
  ⟨by decide, by decide, by decide, by decide, by decide,
    maxpool_cache_mask xTie (by decide) (by decide) 0 0 1 (by decide) (by decide)
      (by decide)⟩

/-- C6: after a forward pass and a backward pass with a delta of the pooled
shape, a window with a uniquely attained maximum has the full-resolution
gradient summing over the window to the delta entry, and every tied maximum
position receives the delta value verbatim. -/
theorem maxpool_backward_mass (x delta : Tensor3)
    (h2r : 2 ∣ x.rows) (h2c : 2 ∣ x.cols)
    (hdr : delta.rows = (x.rows + 1) / 2) (hdc : delta.cols = (x.cols + 1) / 2)
    (d i j : ℕ) (hd : d < x.ch) (hi : i < (x.rows + 1) / 2)
    (hj : j < (x.cols + 1) / 2) :
    ∃ m out, maxPoolForward x = Except.ok (m, out) ∧
      ∃ m2 g, maxPoolBackward m delta = Except.ok (m2, g) ∧
        ((∃! p : Fin 2 × Fin 2,
            x.data d (2 * i + (p.1 : ℕ)) (2 * j + (p.2 : ℕ)) = windowMax x d i j) →
          g.data d (2 * i) (2 * j) + g.data d (2 * i) (2 * j + 1) +
              g.data d (2 * i + 1) (2 * j) + g.data d (2 * i + 1) (2 * j + 1) =
            delta.data d i j) ∧
        (∀ u v : ℕ, u < 2 → v < 2 →
          x.data d (2 * i + u) (2 * j + v) = windowMax x d i j →
          g.data d (2 * i + u) (2 * j + v) = delta.data d i j) := by
  have hcond : ¬(0 < x.rows ∧ 0 < x.cols ∧ ¬(2 ∣ x.rows ∧ 2 ∣ x.cols)) :=
    fun h => h.2.2 ⟨h2r, h2c⟩
  obtain ⟨r2, hr2⟩ := h2r
  obtain ⟨c2, hc2⟩ := h2c
  have gval : ∀ u v : ℕ, u < 2 → v < 2 →
      (mpScale (mpMask x) delta).data d (2 * i + u) (2 * j + v) =
        (if x.data d (2 * i + u) (2 * j + v) = windowMax x d i j then (1 : ℚ)
          else 0) * delta.data d i j := by
    intro u v hu hv
    have e1 : (2 * i + u) / 2 = i := by omega
    have e2 : (2 * j + v) / 2 = j := by omega
    have hir : i < delta.rows := by omega
    have hjc : j < delta.cols := by omega
    have hrow : 2 * i + u < x.rows := by omega
    have hcol : 2 * j + v < x.cols := by omega
    simp only [mpScale, mpMask]
    rw [e1, e2, if_pos ⟨hir, hjc⟩, if_pos ⟨hd, hrow, hcol⟩]
  have hfwd : maxPoolForward x = Except.ok ({ cache := some (mpMask x) }, mpOut x) := by
    unfold maxPoolForward
    rw [if_neg hcond]
  have hbwd : maxPoolBackward { cache := some (mpMask x) } delta =
      Except.ok ({ cache := some (mpScale (mpMask x) delta) },
        mpScale (mpMask x) delta) := rfl
  refine ⟨_, _, hfwd, _, _, hbwd, ?_, ?_⟩
  · intro hu
    have g00 := gval 0 0 (by omega) (by omega)
    have g01 := gval 0 1 (by omega) (by omega)
    have g10 := gval 1 0 (by omega) (by omega)
    have g11 := gval 1 1 (by omega) (by omega)
    simp only [Nat.add_zero] at g00 g01 g10
    rw [g00, g01, g10, g11]
    have hmask := mask_sum_unique
      (fun p : Fin 2 × Fin 2 =>
        x.data d (2 * i + (p.1 : ℕ)) (2 * j + (p.2 : ℕ)) = windowMax x d i j) hu
    simp only [Fin.val_zero, Fin.val_one, Nat.add_zero] at hmask
    linear_combination delta.data d i j * hmask
  · intro u v hu hv hx
    rw [gval u v hu hv, if_pos hx, one_mul]

/-- Witness for C6 on the all-distinct input `xDistinct` (unique maximum at
the bottom-right window position) with the 1×1×1 delta `deltaPool`. -/
theorem maxpool_backward_mass_witness :
    2 ∣ xDistinct.rows ∧ 2 ∣ xDistinct.cols ∧
      deltaPool.rows = (xDistinct.rows + 1) / 2 ∧
      deltaPool.cols = (xDistinct.cols + 1) / 2 ∧
      0 < xDistinct.ch ∧ 0 < (xDistinct.rows + 1) / 2 ∧ 0 < (xDistinct.cols + 1) / 2 ∧
      (∃ m out, maxPoolForward xDistinct = Except.ok (m, out) ∧
        ∃ m2 g, maxPoolBackward m deltaPool = Except.ok (m2, g) ∧
          ((∃! p : Fin 2 × Fin 2,
              xDistinct.data 0 (2 * 0 + (p.1 : ℕ)) (2 * 0 + (p.2 : ℕ)) =
                windowMax xDistinct 0 0 0) →
            g.data 0 (2 * 0) (2 * 0) + g.data 0 (2 * 0) (2 * 0 + 1) +
                g.data 0 (2 * 0 + 1) (2 * 0) + g.data 0 (2 * 0 + 1) (2 * 0 + 1) =
              deltaPool.data 0 0 0) ∧
          (∀ u v : ℕ, u < 2 → v < 2 →
            xDistinct.data 0 (2 * 0 + u) (2 * 0 + v) = windowMax xDistinct 0 0 0 →
            g.data 0 (2 * 0 + u) (2 * 0 + v) = deltaPool.data 0 0 0)) :=
  ⟨by decide, by decide, by decide, by decide, by decide, by decide, by decide,
    maxpool_backward_mass xDistinct deltaPool (by decide) (by decide) (by decide)
      (by decide) 0 0 0 (by decide) (by decide) (by decide)⟩

/-- C7 is contradicted by the code: on a 1×3×3 input (odd spatial dimensions)
the forward pass crashes — `idx_map` is always a full `(C, 2, 2)` array (built
with `np.ones((C,2,2))`/`np.zeros((C,2,2))`), and assigning it into the
partial final cache window raises a numpy broadcast `ValueError` — instead of
processing the partial window. -/
theorem maxpool_forward_odd_fails :
    maxPoolForward xOdd = Except.error Err.valueError ∧
      xOdd.rows % 2 = 1 ∧ xOdd.cols % 2 = 1 :=
  ⟨rfl, rfl, rfl⟩

/-- C10: `MaxPool.backward` returns the very tensor it stores back into the
cache (the scaled mask, not the 0/1 mask), and a second backward call without
an intervening forward therefore scales the already-scaled values again. -/
theorem maxpool_backward_aliasing (c d dp : Tensor3) :
    maxPoolBackward ⟨some c⟩ d = Except.ok (⟨some (mpScale c d)⟩, mpScale c d) ∧
    maxPoolBackward ⟨some (mpScale c d)⟩ dp =
      Except.ok (⟨some (mpScale (mpScale c d) dp)⟩, mpScale (mpScale c d) dp) ∧
    (∀ ch a b, a / 2 < d.rows → b / 2 < d.cols → a / 2 < dp.rows →
      b / 2 < dp.cols →
      (mpScale (mpScale c d) dp).data ch a b =
        c.data ch a b * d.data ch (a / 2) (b / 2) * dp.data ch (a / 2) (b / 2)) := by
  refine ⟨rfl, rfl, ?_⟩
  intro ch a b h1 h2 h3 h4
  simp only [mpScale]
  rw [if_pos (And.intro h3 h4), if_pos (And.intro h1 h2)]

/-- Witness for C10 on a 1×2×2 cache stand-in and two 1×1×1 deltas. -/
theorem maxpool_backward_aliasing_witness :
    (0 : ℕ) / 2 < deltaPool.rows ∧ (0 : ℕ) / 2 < deltaPool.cols ∧
      (0 : ℕ) / 2 < deltaPool2.rows ∧ (0 : ℕ) / 2 < deltaPool2.cols ∧
      (mpScale (mpScale xTwo deltaPool) deltaPool2).data 0 0 0 =
        xTwo.data 0 0 0 * deltaPool.data 0 (0 / 2) (0 / 2) *
          deltaPool2.data 0 (0 / 2) (0 / 2) :=
  ⟨by decide, by decide, by decide, by decide,
    (maxpool_backward_aliasing xTwo deltaPool deltaPool2).2.2 0 0 0 (by decide)
      (by decide) (by decide) (by decide)⟩

/-- C8: the gradient-check loop body restores the perturbed weight element,
so after the two central-difference evaluations the weight store equals its
value before the perturbation, for every weight element, epsilon and loss
functional. -/
theorem gradcheck_restores_weights (W0 : ℕ × ℕ × ℕ × ℕ → ℚ)
    (idx : ℕ × ℕ × ℕ × ℕ) (eps : ℚ) (loss : (ℕ × ℕ × ℕ × ℕ → ℚ) → ℚ) :
    (gradCheckStep W0 idx eps loss).1 = W0 := by
  funext t
  by_cases h : t = idx <;> simp [gradCheckStep, updW, h]

end ConvNb
